import Mathlib

/-!
Verification of the music-player tool module of the `local-mcp` repository.

The development shallowly embeds the module `src/local_mcp/music.py`:
the skip predicate `should_skip`, the cached recursive directory collector
`get_all_files`, the command builder of `mpd_play_tracks`, and the random
playback orchestrator `mdp_play_random_tracks`.

Modelling decisions:
* the regular-expression engine behind `re.search` is abstracted as a
  boolean oracle `rmatch : String → String → Bool` (pattern, candidate);
* the HTTP directory fetch `get_files` is abstracted as an oracle
  `fs : String → Except String Directory`; a `.error` value models a
  failing request (non-2xx, transport failure);
* `time.time()` is modelled by a single natural number `now` fixed for the
  duration of one collection run; the TTL comparison uses truncated
  natural subtraction for the age `now - ts`;
* the global mutable dict `cache` is threaded explicitly; it is observed
  by the source only through membership/lookup and item assignment, so it
  is modelled as an association list read through `cacheFind` and updated
  by prepending;
* the unbounded recursion over the (possibly cyclic) remote directory
  graph is bounded by an explicit `fuel` argument; running out of fuel is
  a distinguished error, separate from gateway errors;
* every attempted directory fetch is recorded, in order, in a `calls`
  trace so that statements about "zero Gateway calls" are expressible;
* `random.choices` is modelled by an index oracle `rng : Nat → Nat`
  reduced modulo the population size, one draw per selected element;
* percent-decoding `unquote` is abstracted as `uq : String → String`.
-/

namespace LocalMcp

/-- A music file entry as produced by the directory listing scraper
(`File` TypedDict in the source). -/
structure File where
  file : String
  title : String
  duration : String
  deriving DecidableEq, Repr

/-- A subfolder entry of a directory listing (`Folder` TypedDict). -/
structure Folder where
  folder : String
  title : String
  deriving DecidableEq, Repr

/-- The immediate, non-recursive listing of one path (`Directory`
TypedDict): its files and subfolders. -/
structure Directory where
  files : List File
  directories : List Folder
  deriving DecidableEq, Repr

/-- Does `pat` occur at the head of the first list? Auxiliary for the
substring test. -/
def startsWithChars : List Char → List Char → Bool
  | _, [] => true
  | [], _ :: _ => false
  | c :: cs, d :: ds => c == d && startsWithChars cs ds

/-- Substring occurrence on character lists. -/
def hasSubChars : List Char → List Char → Bool
  | [], pat => pat.isEmpty
  | c :: rest, pat => startsWithChars (c :: rest) pat || hasSubChars rest pat

/-- Python's `sub in s` substring containment on strings. -/
def containsSub (sub s : String) : Bool :=
  hasSubChars s.toList sub.toList

/-- `should_skip(path, skip)` from the source:
`bool(skip and re.search(skip, path)) or "The Dresden Files" in path`.
A `none` or empty pattern is falsy, in which case the regex is not
consulted; `rmatch` abstracts `re.search`. -/
def should_skip (rmatch : String → String → Bool) (path : String)
    (skip : Option String) : Bool :=
  (match skip with
   | none => false
   | some pat => !pat.isEmpty && rmatch pat path)
  || containsSub "The Dresden Files" path

/-- Cache keys: `(path, skip)` exactly as in the source. -/
abbrev CacheKey := String × Option String

/-- Cache entries: the collected file list and its fetch timestamp. -/
abbrev CacheEntry := List File × Nat

/-- The module-level `cache` dict, threaded explicitly. -/
abbrev Cache := List (CacheKey × CacheEntry)

/-- Dictionary lookup: `cache[key]` guarded by `key in cache`. -/
def cacheFind : Cache → CacheKey → Option CacheEntry
  | [], _ => none
  | (k', v) :: rest, k => if k' = k then some v else cacheFind rest k

/-- Dictionary update `cache[key] = value`; the new binding shadows any
older one with respect to `cacheFind`. -/
def cacheInsert (c : Cache) (k : CacheKey) (v : CacheEntry) : Cache :=
  (k, v) :: c

/-- The cache short-circuit of `get_all_files`: the stored file list when
a non-stale entry exists for the key, `none` otherwise. -/
def freshHit (TTL now : Nat) (c : Cache) (k : CacheKey) : Option (List File) :=
  match cacheFind c k with
  | some (res, ts) => if now - ts < TTL then some res else none
  | none => none

/-- The ways a collection run can fail: a gateway failure while fetching a
concrete path, or exhaustion of the recursion fuel. -/
inductive CollectErr where
  | gateway (path : String) (msg : String)
  | fuelOut
  deriving DecidableEq, Repr

/-- Outcome of a collection run: its result (or error), the cache left
behind, and the directory paths fetched from the gateway, in order. -/
structure CollectResult where
  result : Except CollectErr (List File)
  cache : Cache
  calls : List String
  deriving Repr

/-- The `for directory in directory["directories"]` loop of
`get_all_files`: collect each subfolder in order, threading the cache,
concatenating the results, aborting on the first error. -/
def collectChildren (step : String → Cache → CollectResult) :
    List Folder → Cache → CollectResult
  | [], c => ⟨.ok [], c, []⟩
  | d :: rest, c =>
    match step d.folder c with
    | ⟨.error e, c', calls⟩ => ⟨.error e, c', calls⟩
    | ⟨.ok sub, c', calls⟩ =>
      match collectChildren step rest c' with
      | ⟨.error e, c'', calls₂⟩ => ⟨.error e, c'', calls ++ calls₂⟩
      | ⟨.ok subs, c'', calls₂⟩ => ⟨.ok (sub ++ subs), c'', calls ++ calls₂⟩

/-- `get_all_files(client, path, skip)` from the source.  First the cache
short-circuit, then the skip prune (which still writes an empty entry),
then the fetch of the immediate listing, the recursive walk over the
subfolders, the file-level re-filter, and the final cache write.  The
`fuel` bound only gates the fetch-and-recurse step; the zero-fuel case
serves cache hits and skip prunes exactly like the positive case. -/
def get_all_files (rmatch : String → String → Bool)
    (fs : String → Except String Directory) (TTL now : Nat) :
    Nat → String → Option String → Cache → CollectResult
  | 0, path, skip, cache =>
    match freshHit TTL now cache (path, skip) with
    | some res => ⟨.ok res, cache, []⟩
    | none =>
      if should_skip rmatch path skip then
        ⟨.ok [], cacheInsert cache (path, skip) ([], now), []⟩
      else
        ⟨.error .fuelOut, cache, []⟩
  | fuel + 1, path, skip, cache =>
    match freshHit TTL now cache (path, skip) with
    | some res => ⟨.ok res, cache, []⟩
    | none =>
      if should_skip rmatch path skip then
        ⟨.ok [], cacheInsert cache (path, skip) ([], now), []⟩
      else
        match fs path with
        | .error m => ⟨.error (.gateway path m), cache, [path]⟩
        | .ok dir =>
          match collectChildren
              (fun p c => get_all_files rmatch fs TTL now fuel p skip c)
              dir.directories cache with
          | ⟨.error e, c', calls⟩ => ⟨.error e, c', path :: calls⟩
          | ⟨.ok subs, c', calls⟩ =>
            let res :=
              (dir.files ++ subs).filter
                (fun f => !should_skip rmatch f.file skip)
            ⟨.ok res, cacheInsert c' (path, skip) (res, now), path :: calls⟩

/-- List indexing with a fallback, mirroring `population[i]` for an
in-range index. -/
def nthOr (l : List File) (n : Nat) (d : File) : File :=
  match l, n with
  | [], _ => d
  | x :: _, 0 => x
  | _ :: xs, n + 1 => nthOr xs n d

/-- `random.choices(population, k=k)`: `k` independent draws with
replacement, each picked by the index oracle `rng` reduced modulo the
population size. -/
def pyChoices (rng : Nat → Nat) (population : List File) (k : Nat) :
    List File :=
  (List.range k).map (fun i => nthOr population (rng i % population.length) ⟨"", "", ""⟩)

/-- The selection step of `mdp_play_random_tracks`:
`random.choices(all_files, k=min(count, len(all_files)))`. -/
def select (rng : Nat → Nat) (files : List File) (count : Nat) : List File :=
  pyChoices rng files (min count files.length)

/-- Python's `sorted` on strings (lexicographic by code point). -/
def pySorted (l : List String) : List String :=
  List.insertionSort (· ≤ ·) l

/-- The tracks handed to `mpd_play_tracks` by the orchestrator:
`sorted([unquote(file["file"]) for file in random_files])`. -/
def selectedTracks (uq : String → String) (rng : Nat → Nat)
    (files : List File) (count : Nat) : List String :=
  pySorted ((select rng files count).map (fun f => uq f.file))

/-- The command sequence built by `mpd_play_tracks`: optionally
`["clear"]`, then one `["add", track]` per track in order, then
optionally `["play"]`. -/
def mpd_play_tracks_commands (tracks : List String)
    (clear_first start_playing : Bool) : List (List String) :=
  let commands : List (List String) := []
  let commands := if clear_first then commands ++ [["clear"]] else commands
  let commands := commands ++ tracks.map (fun track => ["add", track])
  let commands := if start_playing then commands ++ [["play"]] else commands
  commands

/-- `mpd_play_tracks`: build the command sequence and execute it through
the gateway's command runner. -/
def mpd_play_tracks {σ : Type} (runCmds : List (List String) → Except String σ)
    (tracks : List String) (clear_first start_playing : Bool) :
    Except String σ :=
  runCmds (mpd_play_tracks_commands tracks clear_first start_playing)

/-- Rendering of a collection error as the failure surfaced to the tool
caller; a gateway failure is propagated unchanged. -/
def collectErrMsg : CollectErr → String
  | .gateway _ m => m
  | .fuelOut => "recursion fuel exhausted"

/-- Outcome of one `mdp_play_random_tracks` invocation: the status (or
error) reported to the caller, the cache left behind, and the directory
fetches issued. -/
structure PlayOutcome (σ : Type) where
  status : Except String σ
  cache : Cache
  calls : List String

/-- `mdp_play_random_tracks`: collect all files under `path`, sample
`min(count, len(files))` of them, sort the percent-decoded paths and hand
them to `mpd_play_tracks`. -/
def mdp_play_random_tracks {σ : Type} (rmatch : String → String → Bool)
    (uq : String → String) (rng : Nat → Nat)
    (fs : String → Except String Directory)
    (runCmds : List (List String) → Except String σ)
    (TTL now fuel : Nat) (path : String) (count : Nat)
    (clear_first start_playing : Bool) (skip : Option String)
    (cache : Cache) : PlayOutcome σ :=
  match get_all_files rmatch fs TTL now fuel path skip cache with
  | ⟨.error e, c', calls⟩ => ⟨.error (collectErrMsg e), c', calls⟩
  | ⟨.ok files, c', calls⟩ =>
    ⟨mpd_play_tracks runCmds (selectedTracks uq rng files count)
        clear_first start_playing, c', calls⟩

/-- Invariant of the cache for a fixed skip pattern: every entry stored
under that pattern holds only files the skip predicate lets through. -/
def CacheFiltered (rmatch : String → String → Bool) (skip : Option String)
    (c : Cache) : Prop :=
  ∀ p res ts, cacheFind c (p, skip) = some (res, ts) →
    ∀ f ∈ res, should_skip rmatch f.file skip = false

/-- `child` is listed as a subfolder of `parent` by the gateway. -/
def Link (fs : String → Except String Directory) (parent child : String) :
    Prop :=
  ∃ d, fs parent = .ok d ∧ child ∈ d.directories.map Folder.folder

/-- The chain of directories currently being expanded, deepest first:
the current node is a gateway-listed child of the head, each element a
gateway-listed child of the next. -/
def StackOK (fs : String → Except String Directory) :
    List String → String → Prop
  | [], _ => True
  | a :: rest, q => Link fs a q ∧ StackOK fs rest a

/-- Every directory on the in-progress stack was a cache miss and was not
skip-pruned (otherwise its expansion would not have started). -/
def StackPre (rmatch : String → String → Bool) (TTL now : Nat)
    (skip : Option String) (P : List String) (c : Cache) : Prop :=
  ∀ x ∈ P, freshHit TTL now c (x, skip) = none ∧
    should_skip rmatch x skip = false

/-- The keys of the in-progress stack are left untouched in the cache. -/
def KeysUnchanged (skip : Option String) (P : List String) (c c' : Cache) :
    Prop :=
  ∀ x ∈ P, cacheFind c' (x, skip) = cacheFind c (x, skip)

/-- Entries that are fresh at the start of a run keep their exact binding
through the run. -/
def ValidUnchanged (TTL now : Nat) (c c' : Cache) : Prop :=
  ∀ k res, freshHit TTL now c k = some res → cacheFind c' k = cacheFind c k

/-- What one collection step guarantees relative to an in-progress stack
`P`: stack keys untouched, the node's own key untouched on error, fresh
entries untouched, and re-entering an in-progress node always fails. -/
def RunSpec (rmatch : String → String → Bool) (TTL now : Nat)
    (skip : Option String) (P : List String) (q : String) (c : Cache)
    (out : CollectResult) : Prop :=
  KeysUnchanged skip P c out.cache ∧
  (∀ e, out.result = .error e →
    cacheFind out.cache (q, skip) = cacheFind c (q, skip)) ∧
  ValidUnchanged TTL now c out.cache ∧
  (q ∈ P → ∃ e, out.result = .error e)

theorem cacheFind_cacheInsert (c : Cache) (k : CacheKey) (v : CacheEntry)
    (k' : CacheKey) :
    cacheFind (cacheInsert c k v) k' = if k = k' then some v else cacheFind c k' := by
  simp [cacheInsert, cacheFind]

theorem freshHit_congr {c c' : Cache} {k : CacheKey} (TTL now : Nat)
    (h : cacheFind c' k = cacheFind c k) :
    freshHit TTL now c' k = freshHit TTL now c k := by
  simp [freshHit, h]

theorem nthOr_mem (l : List File) (n : Nat) (d : File) (h : n < l.length) :
    nthOr l n d ∈ l := by
  induction l generalizing n with
  | nil => simp at h
  | cons x xs ih =>
    cases n with
    | zero => simp [nthOr]
    | succ m =>
      simp only [nthOr]
      exact List.mem_cons_of_mem _ (ih m (by simpa using h))

/-- The cache short-circuit of `get_all_files`: a fresh entry is returned
verbatim, without touching the cache and without any gateway call. -/
theorem get_all_files_hit (rmatch : String → String → Bool)
    (fs : String → Except String Directory) (TTL now fuel : Nat)
    (path : String) (skip : Option String) (cache : Cache) (res : List File)
    (h : freshHit TTL now cache (path, skip) = some res) :
    get_all_files rmatch fs TTL now fuel path skip cache = ⟨.ok res, cache, []⟩ := by
  cases fuel <;> simp [get_all_files, h]

/-- The skip prune of `get_all_files`: on a cache miss for a skipped path
the run returns the empty list, records an empty entry stamped `now`, and
issues no gateway call. -/
theorem get_all_files_skip (rmatch : String → String → Bool)
    (fs : String → Except String Directory) (TTL now fuel : Nat)
    (path : String) (skip : Option String) (cache : Cache)
    (hmiss : freshHit TTL now cache (path, skip) = none)
    (hskip : should_skip rmatch path skip = true) :
    get_all_files rmatch fs TTL now fuel path skip cache
      = ⟨.ok [], cacheInsert cache (path, skip) ([], now), []⟩ := by
  cases fuel <;> simp [get_all_files, hmiss, hskip]

/-- Claim C1: for every key `(path, skipPattern)` whose cache entry has an
age strictly below the TTL, `collect` returns exactly the cached file
list, leaves the cache unchanged, and issues zero gateway fetches for the
path or any of its descendants. -/
theorem claim_C1_cache_hit_avoids_io (rmatch : String → String → Bool)
    (fs : String → Except String Directory) (TTL now fuel : Nat)
    (path : String) (skip : Option String) (cache : Cache)
    (res : List File) (ts : Nat)
    (hfind : cacheFind cache (path, skip) = some (res, ts))
    (hfresh : now - ts < TTL) :
    get_all_files rmatch fs TTL now fuel path skip cache
      = ⟨.ok res, cache, []⟩ :=
  get_all_files_hit rmatch fs TTL now fuel path skip cache res
    (by simp [freshHit, hfind, hfresh])

/-- Concrete instance of claim C1: a fresh entry for `("A", none)` is
served verbatim with no gateway traffic. -/
theorem claim_C1_witness :
    get_all_files (fun _ _ => false) (fun _ => .error "down") 10 5 3 "A"
      none [(("A", none), ([File.mk "c.mp3" "c" "0"], 0))]
      = ⟨.ok [File.mk "c.mp3" "c" "0"],
          [(("A", none), ([File.mk "c.mp3" "c" "0"], 0))], []⟩ :=
  claim_C1_cache_hit_avoids_io _ _ _ _ _ _ _ _ _ _ rfl (by decide)

/-- Claim C2: if `shouldSkip(path, skipPattern)` holds and the key has no
valid cache entry, `collect` returns the empty sequence and issues zero
gateway fetches for the path or any descendant. -/
theorem claim_C2_skip_prunes_subtree (rmatch : String → String → Bool)
    (fs : String → Except String Directory) (TTL now fuel : Nat)
    (path : String) (skip : Option String) (cache : Cache)
    (hmiss : freshHit TTL now cache (path, skip) = none)
    (hskip : should_skip rmatch path skip = true) :
    (get_all_files rmatch fs TTL now fuel path skip cache).result = .ok [] ∧
    (get_all_files rmatch fs TTL now fuel path skip cache).calls = [] := by
  rw [get_all_files_skip rmatch fs TTL now fuel path skip cache hmiss hskip]
  exact ⟨rfl, rfl⟩

/-- Concrete instance of claim C2: the hard-coded exclusion prunes a
directory without any gateway traffic. -/
theorem claim_C2_witness :
    (get_all_files (fun _ _ => false) (fun _ => .ok ⟨[], []⟩) 10 5 2
      "The Dresden Files/extra" none []).result = .ok [] ∧
    (get_all_files (fun _ _ => false) (fun _ => .ok ⟨[], []⟩) 10 5 2
      "The Dresden Files/extra" none []).calls = [] :=
  claim_C2_skip_prunes_subtree _ _ _ _ _ _ _ _ rfl (by decide)

/-- Claim C5: the selection step returns exactly
`min(count, len(files))` elements, each drawn from `files` (sampling with
replacement), and the empty candidate list always yields the empty
selection. -/
theorem claim_C5_sampling_bound (rng : Nat → Nat) (files : List File)
    (count : Nat) :
    (select rng files count).length = min count files.length ∧
    (∀ f ∈ select rng files count, f ∈ files) ∧
    select rng [] count = [] := by
  refine ⟨by simp [select, pyChoices], ?_, by simp [select, pyChoices]⟩
  intro f hf
  simp only [select, pyChoices, List.mem_map, List.mem_range] at hf
  obtain ⟨i, hi, rfl⟩ := hf
  have hi' : i < files.length :=
    Nat.lt_of_lt_of_le hi (Nat.min_le_right count files.length)
  exact nthOr_mem _ _ _
    (Nat.mod_lt _ (Nat.lt_of_le_of_lt (Nat.zero_le i) hi'))

/-- Claim C8: `playTracks` builds exactly the sequence of an optional
`["clear"]`, one `["add", track]` per track in order, and an optional
`["play"]`, hands it to the command runner unchanged, and on the example
`["a.mp3", "b.mp3"]` with both flags set produces exactly
`[["clear"], ["add","a.mp3"], ["add","b.mp3"], ["play"]]`. -/
theorem claim_C8_command_sequencing (tracks : List String)
    (clear_first start_playing : Bool) :
    mpd_play_tracks_commands tracks clear_first start_playing
      = (if clear_first then [["clear"]] else [])
        ++ tracks.map (fun t => ["add", t])
        ++ (if start_playing then [["play"]] else []) ∧
    (∀ (σ : Type) (runCmds : List (List String) → Except String σ),
      mpd_play_tracks runCmds tracks clear_first start_playing
        = runCmds (mpd_play_tracks_commands tracks clear_first start_playing)) ∧
    mpd_play_tracks_commands ["a.mp3", "b.mp3"] true true
      = [["clear"], ["add", "a.mp3"], ["add", "b.mp3"], ["play"]] := by
  refine ⟨?_, fun σ runCmds => rfl, rfl⟩
  cases clear_first <;> cases start_playing <;>
    simp [mpd_play_tracks_commands]

/-- Claim C10: on a cache miss for a skipped path, `collect` records an
empty entry with the current timestamp under the key before returning, so
for the rest of the TTL period the skip decision for that key is served
from the cache (no gateway traffic, empty result). -/
theorem claim_C10_skip_prune_is_cached (rmatch : String → String → Bool)
    (fs : String → Except String Directory) (TTL now fuel : Nat)
    (path : String) (skip : Option String) (cache : Cache)
    (hmiss : freshHit TTL now cache (path, skip) = none)
    (hskip : should_skip rmatch path skip = true) :
    (get_all_files rmatch fs TTL now fuel path skip cache).cache
      = cacheInsert cache (path, skip) ([], now) ∧
    cacheFind (get_all_files rmatch fs TTL now fuel path skip cache).cache
      (path, skip) = some ([], now) ∧
    (∀ now' fuel', now' - now < TTL →
      get_all_files rmatch fs TTL now' fuel' path skip
          (get_all_files rmatch fs TTL now fuel path skip cache).cache
        = ⟨.ok [],
            (get_all_files rmatch fs TTL now fuel path skip cache).cache,
            []⟩) := by
  rw [get_all_files_skip rmatch fs TTL now fuel path skip cache hmiss hskip]
  refine ⟨rfl, by simp [cacheFind_cacheInsert], ?_⟩
  intro now' fuel' hlt
  apply get_all_files_hit
  simp [freshHit, cacheFind_cacheInsert, hlt]

/-- Concrete instance of claim C10: a pattern-skipped directory gets an
empty cache entry stamped with the current time, and the skip decision is
then served from the cache. -/
theorem claim_C10_witness :
    (get_all_files (fun pat p => pat == "^B" && p == "B") (fun _ => .ok ⟨[], []⟩)
      10 7 2 "B" (some "^B") []).cache
      = cacheInsert [] ("B", some "^B") ([], 7) ∧
    cacheFind (get_all_files (fun pat p => pat == "^B" && p == "B")
      (fun _ => .ok ⟨[], []⟩) 10 7 2 "B" (some "^B") []).cache
      ("B", some "^B") = some ([], 7) ∧
    (∀ now' fuel', now' - 7 < 10 →
      get_all_files (fun pat p => pat == "^B" && p == "B") (fun _ => .ok ⟨[], []⟩)
          10 now' fuel' "B" (some "^B")
          (get_all_files (fun pat p => pat == "^B" && p == "B")
            (fun _ => .ok ⟨[], []⟩) 10 7 2 "B" (some "^B") []).cache
        = ⟨.ok [],
            (get_all_files (fun pat p => pat == "^B" && p == "B")
              (fun _ => .ok ⟨[], []⟩) 10 7 2 "B" (some "^B") []).cache,
            []⟩) :=
  claim_C10_skip_prune_is_cached _ _ _ _ _ _ _ _ rfl (by decide)

theorem stackOK_cycle (fs : String → Except String Directory) :
    ∀ (P : List String) (q x : String), StackOK fs P q → x ∈ P →
      ∃ y, Link fs x y ∧ (y = q ∨ y ∈ P) := by
  intro P
  induction P with
  | nil => intro q x _ hx; cases hx
  | cons a rest ih =>
    intro q x hstack hx
    obtain ⟨hlink, hrest⟩ := hstack
    rcases List.mem_cons.mp hx with rfl | hx'
    · exact ⟨q, hlink, Or.inl rfl⟩
    · obtain ⟨y, hy, hcase⟩ := ih a x hrest hx'
      rcases hcase with rfl | hyP
      · exact ⟨y, hy, Or.inr (List.mem_cons_self _ _)⟩
      · exact ⟨y, hy, Or.inr (List.mem_cons_of_mem _ hyP)⟩

theorem runSpec_of_hit (rmatch : String → String → Bool) (TTL now : Nat)
    (skip : Option String) (P : List String) (path : String) (cache : Cache)
    (res : List File) (hpre : StackPre rmatch TTL now skip P cache)
    (h : freshHit TTL now cache (path, skip) = some res) :
    RunSpec rmatch TTL now skip P path cache ⟨.ok res, cache, []⟩ := by
  refine ⟨fun x _ => rfl, ?_, fun k r _ => rfl, ?_⟩
  · intro e he; exact absurd he (by simp)
  · intro hmem
    have hnone := (hpre path hmem).1
    simp [hnone] at h

theorem runSpec_of_skip (rmatch : String → String → Bool) (TTL now : Nat)
    (skip : Option String) (P : List String) (path : String) (cache : Cache)
    (hpre : StackPre rmatch TTL now skip P cache)
    (hmiss : freshHit TTL now cache (path, skip) = none)
    (hskip : should_skip rmatch path skip = true) :
    RunSpec rmatch TTL now skip P path cache
      ⟨.ok [], cacheInsert cache (path, skip) ([], now), []⟩ := by
  refine ⟨?_, ?_, ?_, ?_⟩
  · intro x hx
    have hne : (path, skip) ≠ (x, skip) := by
      intro hc
      have hpx : path = x := congrArg Prod.fst hc
      have := (hpre x hx).2
      rw [← hpx] at this
      simp [this] at hskip
    rw [cacheFind_cacheInsert, if_neg hne]
  · intro e he; exact absurd he (by simp)
  · intro k res hk
    have hne : (path, skip) ≠ k := by
      intro hc
      rw [← hc] at hk
      simp [hmiss] at hk
    rw [cacheFind_cacheInsert, if_neg hne]
  · intro hmem
    have := (hpre path hmem).2
    simp [this] at hskip

theorem collectChildren_spec (rmatch : String → String → Bool)
    (fs : String → Except String Directory) (TTL now : Nat)
    (skip : Option String) (P' : List String)
    (step : String → Cache → CollectResult) :
    ∀ (ds : List Folder) (c : Cache),
      (∀ d ∈ ds, ∀ c', StackPre rmatch TTL now skip P' c' →
        RunSpec rmatch TTL now skip P' d.folder c' (step d.folder c')) →
      StackPre rmatch TTL now skip P' c →
      KeysUnchanged skip P' c (collectChildren step ds c).cache ∧
      ValidUnchanged TTL now c (collectChildren step ds c).cache ∧
      ((∃ d ∈ ds, d.folder ∈ P') →
        ∃ e, (collectChildren step ds c).result = .error e) := by
  intro ds
  induction ds with
  | nil =>
    intro c _ _
    refine ⟨fun x _ => rfl, fun k res _ => rfl, ?_⟩
    rintro ⟨d, hd, _⟩
    cases hd
  | cons d rest ih =>
    intro c hstep hpre
    obtain ⟨hK, hErr, hV, hD⟩ := hstep d (List.mem_cons_self d rest) c hpre
    rcases hs : step d.folder c with ⟨r, c₁, calls₁⟩
    rw [hs] at hK hErr hV hD
    cases r with
    | error e =>
      have hout : collectChildren step (d :: rest) c = ⟨.error e, c₁, calls₁⟩ := by
        simp [collectChildren, hs]
      rw [hout]
      exact ⟨hK, hV, fun _ => ⟨e, rfl⟩⟩
    | ok sub =>
      have hpre₁ : StackPre rmatch TTL now skip P' c₁ := by
        intro x hx
        obtain ⟨h1, h2⟩ := hpre x hx
        exact ⟨by rw [freshHit_congr TTL now (hK x hx)]; exact h1, h2⟩
      obtain ⟨hK₂, hV₂, hD₂⟩ :=
        ih c₁ (fun d' hd' => hstep d' (List.mem_cons_of_mem _ hd')) hpre₁
      rcases hr : collectChildren step rest c₁ with ⟨r₂, c₂, calls₂⟩
      rw [hr] at hK₂ hV₂ hD₂
      cases r₂ with
      | error e₂ =>
        have hout : collectChildren step (d :: rest) c
            = ⟨.error e₂, c₂, calls₁ ++ calls₂⟩ := by
          simp [collectChildren, hs, hr]
        rw [hout]
        refine ⟨?_, ?_, fun _ => ⟨e₂, rfl⟩⟩
        · intro x hx; rw [hK₂ x hx, hK x hx]
        · intro k res hk
          have h1 := hV k res hk
          have hk₁ : freshHit TTL now c₁ k = some res := by
            rw [freshHit_congr TTL now h1]; exact hk
          rw [hV₂ k res hk₁, h1]
      | ok subs₂ =>
        have hout : collectChildren step (d :: rest) c
            = ⟨.ok (sub ++ subs₂), c₂, calls₁ ++ calls₂⟩ := by
          simp [collectChildren, hs, hr]
        rw [hout]
        refine ⟨?_, ?_, ?_⟩
        · intro x hx; rw [hK₂ x hx, hK x hx]
        · intro k res hk
          have h1 := hV k res hk
          have hk₁ : freshHit TTL now c₁ k = some res := by
            rw [freshHit_congr TTL now h1]; exact hk
          rw [hV₂ k res hk₁, h1]
        · rintro ⟨d', hd', hdP⟩
          rcases List.mem_cons.mp hd' with rfl | hd'rest
          · obtain ⟨e, he⟩ := hD hdP
            exact absurd he (by simp)
          · obtain ⟨e, he⟩ := hD₂ ⟨d', hd'rest, hdP⟩
            exact absurd he (by simp)

theorem get_all_files_stack (rmatch : String → String → Bool)
    (fs : String → Except String Directory) (TTL now : Nat)
    (skip : Option String) :
    ∀ (fuel : Nat) (path : String) (cache : Cache) (P : List String),
      StackOK fs P path → StackPre rmatch TTL now skip P cache →
      RunSpec rmatch TTL now skip P path cache
        (get_all_files rmatch fs TTL now fuel path skip cache) := by
  intro fuel
  induction fuel with
  | zero =>
    intro path cache P _ hpre
    rcases hh : freshHit TTL now cache (path, skip) with _ | res
    · cases hsk : should_skip rmatch path skip with
      | true =>
        rw [get_all_files_skip rmatch fs TTL now 0 path skip cache hh hsk]
        exact runSpec_of_skip rmatch TTL now skip P path cache hpre hh hsk
      | false =>
        have hout : get_all_files rmatch fs TTL now 0 path skip cache
            = ⟨.error .fuelOut, cache, []⟩ := by
          simp [get_all_files, hh, hsk]
        rw [hout]
        exact ⟨fun x _ => rfl, fun e _ => rfl, fun k r _ => rfl,
          fun _ => ⟨.fuelOut, rfl⟩⟩
    · rw [get_all_files_hit rmatch fs TTL now 0 path skip cache res hh]
      exact runSpec_of_hit rmatch TTL now skip P path cache res hpre hh
  | succ fuel ih =>
    intro path cache P hstack hpre
    rcases hh : freshHit TTL now cache (path, skip) with _ | res
    · cases hsk : should_skip rmatch path skip with
      | true =>
        rw [get_all_files_skip rmatch fs TTL now (fuel + 1) path skip cache hh hsk]
        exact runSpec_of_skip rmatch TTL now skip P path cache hpre hh hsk
      | false =>
        cases hfs : fs path with
        | error m =>
          have hout : get_all_files rmatch fs TTL now (fuel + 1) path skip cache
              = ⟨.error (.gateway path m), cache, [path]⟩ := by
            simp [get_all_files, hh, hsk, hfs]
          rw [hout]
          exact ⟨fun x _ => rfl, fun e _ => rfl, fun k r _ => rfl,
            fun _ => ⟨.gateway path m, rfl⟩⟩
        | ok dir =>
          have hstep : ∀ d ∈ dir.directories, ∀ c',
              StackPre rmatch TTL now skip (path :: P) c' →
              RunSpec rmatch TTL now skip (path :: P) d.folder c'
                (get_all_files rmatch fs TTL now fuel d.folder skip c') := by
            intro d hd c' hpre'
            exact ih d.folder c' (path :: P)
              ⟨⟨dir, hfs, List.mem_map_of_mem _ hd⟩, hstack⟩ hpre'
          have hpre' : StackPre rmatch TTL now skip (path :: P) cache := by
            intro x hx
            rcases List.mem_cons.mp hx with rfl | hx'
            · exact ⟨hh, hsk⟩
            · exact hpre x hx'
          obtain ⟨hK, hV, hD⟩ := collectChildren_spec rmatch fs TTL now skip
            (path :: P) (fun p c => get_all_files rmatch fs TTL now fuel p skip c)
            dir.directories cache hstep hpre'
          rcases hr : collectChildren
              (fun p c => get_all_files rmatch fs TTL now fuel p skip c)
              dir.directories cache with ⟨r₂, c₂, calls₂⟩
          rw [hr] at hK hV hD
          cases r₂ with
          | error e =>
            have hout : get_all_files rmatch fs TTL now (fuel + 1) path skip cache
                = ⟨.error e, c₂, path :: calls₂⟩ := by
              simp [get_all_files, hh, hsk, hfs, hr]
            rw [hout]
            refine ⟨?_, ?_, hV, fun _ => ⟨e, rfl⟩⟩
            · intro x hx; exact hK x (List.mem_cons_of_mem _ hx)
            · intro e' _; exact hK path (List.mem_cons_self _ _)
          | ok subs =>
            have hnotP : path ∉ P := by
              intro hmem
              obtain ⟨y, hy, hycase⟩ := stackOK_cycle fs P path path hstack hmem
              obtain ⟨d₀, hd₀, hyd⟩ := hy
              rw [hfs] at hd₀
              injection hd₀ with hdd
              subst hdd
              obtain ⟨d', hd', hdy⟩ := List.mem_map.mp hyd
              have hex : ∃ d'' ∈ dir.directories, d''.folder ∈ path :: P := by
                refine ⟨d', hd', ?_⟩
                rw [hdy]
                rcases hycase with rfl | hyP
                · exact List.mem_cons_self _ _
                · exact List.mem_cons_of_mem _ hyP
              obtain ⟨e, he⟩ := hD hex
              exact absurd he (by simp)
            have hout : get_all_files rmatch fs TTL now (fuel + 1) path skip cache
                = ⟨.ok ((dir.files ++ subs).filter
                      (fun f => !should_skip rmatch f.file skip)),
                    cacheInsert c₂ (path, skip)
                      ((dir.files ++ subs).filter
                        (fun f => !should_skip rmatch f.file skip), now),
                    path :: calls₂⟩ := by
              simp [get_all_files, hh, hsk, hfs, hr]
            rw [hout]
            refine ⟨?_, ?_, ?_, ?_⟩
            · intro x hx
              have hne : (path, skip) ≠ (x, skip) := by
                intro hc
                have hpx : path = x := congrArg Prod.fst hc
                rw [← hpx] at hx
                exact hnotP hx
              rw [cacheFind_cacheInsert, if_neg hne]
              exact hK x (List.mem_cons_of_mem _ hx)
            · intro e he; exact absurd he (by simp)
            · intro k res' hk
              have hne : (path, skip) ≠ k := by
                intro hc
                rw [← hc] at hk
                simp [hh] at hk
              rw [cacheFind_cacheInsert, if_neg hne]
              exact hV k res' hk
            · intro hmem; exact absurd hmem hnotP
    · rw [get_all_files_hit rmatch fs TTL now (fuel + 1) path skip cache res hh]
      exact runSpec_of_hit rmatch TTL now skip P path cache res hpre hh

theorem collectChildren_err_source (fs : String → Except String Directory)
    (step : String → Cache → CollectResult) :
    ∀ (ds : List Folder) (c : Cache) (q m : String),
      (∀ d ∈ ds, ∀ (c' : Cache) (q' m' : String),
        (step d.folder c').result = .error (.gateway q' m') → fs q' = .error m') →
      (collectChildren step ds c).result = .error (.gateway q m) →
      fs q = .error m := by
  intro ds
  induction ds with
  | nil =>
    intro c q m _ h
    simp [collectChildren] at h
  | cons d rest ih =>
    intro c q m hstep h
    rcases hs : step d.folder c with ⟨r, c₁, calls₁⟩
    cases r with
    | error e =>
      have hout : collectChildren step (d :: rest) c = ⟨.error e, c₁, calls₁⟩ := by
        simp [collectChildren, hs]
      rw [hout] at h
      simp only [Except.error.injEq] at h
      apply hstep d (List.mem_cons_self d rest) c q m
      rw [hs, h]
    | ok sub =>
      rcases hr : collectChildren step rest c₁ with ⟨r₂, c₂, calls₂⟩
      cases r₂ with
      | error e₂ =>
        have hout : collectChildren step (d :: rest) c
            = ⟨.error e₂, c₂, calls₁ ++ calls₂⟩ := by
          simp [collectChildren, hs, hr]
        rw [hout] at h
        simp only [Except.error.injEq] at h
        apply ih c₁ q m (fun d' hd' => hstep d' (List.mem_cons_of_mem _ hd'))
        rw [hr, h]
      | ok subs₂ =>
        have hout : collectChildren step (d :: rest) c
            = ⟨.ok (sub ++ subs₂), c₂, calls₁ ++ calls₂⟩ := by
          simp [collectChildren, hs, hr]
        rw [hout] at h
        simp at h

theorem get_all_files_err_source (rmatch : String → String → Bool)
    (fs : String → Except String Directory) (TTL now : Nat)
    (skip : Option String) :
    ∀ (fuel : Nat) (path : String) (cache : Cache) (q m : String),
      (get_all_files rmatch fs TTL now fuel path skip cache).result
        = .error (.gateway q m) →
      fs q = .error m := by
  intro fuel
  induction fuel with
  | zero =>
    intro path cache q m h
    rcases hh : freshHit TTL now cache (path, skip) with _ | res
    · cases hsk : should_skip rmatch path skip with
      | true =>
        rw [get_all_files_skip rmatch fs TTL now 0 path skip cache hh hsk] at h
        simp at h
      | false =>
        have hout : get_all_files rmatch fs TTL now 0 path skip cache
            = ⟨.error .fuelOut, cache, []⟩ := by
          simp [get_all_files, hh, hsk]
        rw [hout] at h
        simp at h
    · rw [get_all_files_hit rmatch fs TTL now 0 path skip cache res hh] at h
      simp at h
  | succ fuel ih =>
    intro path cache q m h
    rcases hh : freshHit TTL now cache (path, skip) with _ | res
    · cases hsk : should_skip rmatch path skip with
      | true =>
        rw [get_all_files_skip rmatch fs TTL now (fuel + 1) path skip cache hh hsk] at h
        simp at h
      | false =>
        cases hfs : fs path with
        | error m' =>
          have hout : get_all_files rmatch fs TTL now (fuel + 1) path skip cache
              = ⟨.error (.gateway path m'), cache, [path]⟩ := by
            simp [get_all_files, hh, hsk, hfs]
          rw [hout] at h
          simp only [Except.error.injEq, CollectErr.gateway.injEq] at h
          obtain ⟨rfl, rfl⟩ := h
          exact hfs
        | ok dir =>
          rcases hr : collectChildren
              (fun p c => get_all_files rmatch fs TTL now fuel p skip c)
              dir.directories cache with ⟨r₂, c₂, calls₂⟩
          cases r₂ with
          | error e =>
            have hout : get_all_files rmatch fs TTL now (fuel + 1) path skip cache
                = ⟨.error e, c₂, path :: calls₂⟩ := by
              simp [get_all_files, hh, hsk, hfs, hr]
            rw [hout] at h
            simp only [Except.error.injEq] at h
            apply collectChildren_err_source fs
              (fun p c => get_all_files rmatch fs TTL now fuel p skip c)
              dir.directories cache q m
              (fun d _ c' q' m' h' => ih d.folder c' q' m' h')
            rw [hr, h]
          | ok subs =>
            have hout : get_all_files rmatch fs TTL now (fuel + 1) path skip cache
                = ⟨.ok ((dir.files ++ subs).filter
                      (fun f => !should_skip rmatch f.file skip)),
                    cacheInsert c₂ (path, skip)
                      ((dir.files ++ subs).filter
                        (fun f => !should_skip rmatch f.file skip), now),
                    path :: calls₂⟩ := by
              simp [get_all_files, hh, hsk, hfs, hr]
            rw [hout] at h
            simp at h
    · rw [get_all_files_hit rmatch fs TTL now (fuel + 1) path skip cache res hh] at h
      simp at h

/-- Claim C4: if a collection run fails, it fails with the error of an
actual gateway fetch failure for the reported path, the cache binding of
the run's own key `(path, skipPattern)` is unchanged, and every entry
that was fresh when the run started keeps its exact binding (so sibling
entries written before the failure, and all previously valid data,
survive). -/
theorem claim_C4_fail_fast_no_partial_write (rmatch : String → String → Bool)
    (fs : String → Except String Directory) (TTL now fuel : Nat)
    (path : String) (skip : Option String) (cache : Cache) (e : CollectErr)
    (herr : (get_all_files rmatch fs TTL now fuel path skip cache).result
      = .error e) :
    cacheFind (get_all_files rmatch fs TTL now fuel path skip cache).cache
      (path, skip) = cacheFind cache (path, skip) ∧
    (∀ q m, e = .gateway q m → fs q = .error m) ∧
    ValidUnchanged TTL now cache
      (get_all_files rmatch fs TTL now fuel path skip cache).cache := by
  obtain ⟨hK, hErr, hV, _⟩ := get_all_files_stack rmatch fs TTL now skip fuel
    path cache [] trivial (fun x hx => absurd hx (List.not_mem_nil x))
  refine ⟨hErr e herr, ?_, hV⟩
  intro q m hqm
  exact get_all_files_err_source rmatch fs TTL now skip fuel path cache q m
    (by rw [herr, hqm])

/-- Concrete instance of claim C4: a gateway failure for `"Z"` surfaces
as that same failure and writes nothing to the cache. -/
theorem claim_C4_witness :
    cacheFind (get_all_files (fun _ _ => false) (fun _ => .error "down")
      10 5 1 "Z" none []).cache ("Z", none) = cacheFind [] ("Z", none) ∧
    (∀ q m, CollectErr.gateway "Z" "down" = .gateway q m →
      (fun _ => (.error "down" : Except String Directory)) q = .error m) ∧
    ValidUnchanged 10 5 []
      (get_all_files (fun _ _ => false) (fun _ => .error "down")
        10 5 1 "Z" none []).cache :=
  claim_C4_fail_fast_no_partial_write (fun _ _ => false)
    (fun _ => .error "down") 10 5 1 "Z" none [] (.gateway "Z" "down") rfl

/-- Counterexample to claim C6 as stated: for the key
`("The Dresden Files", none)` — whose path is skip-pruned — a stale entry
(age `10 - 0 ≥ TTL = 5`) does not make the next collect issue any gateway
call: the run ends with an empty `calls` trace. -/
theorem claim_C6_counterexample :
    cacheFind [(("The Dresden Files", none), (([] : List File), 0))]
      ("The Dresden Files", none) = some ([], 0) ∧
    5 ≤ 10 - 0 ∧
    (get_all_files (fun _ _ => false) (fun _ => .ok ⟨[], []⟩) 5 10 3
      "The Dresden Files" none
      [(("The Dresden Files", none), ([], 0))]).calls = [] :=
  ⟨rfl, by decide, rfl⟩

/-- Claim C6, amended: for a key whose path is *not* skip-pruned, once
the entry's age reaches the TTL the next collect fetches the path from
the gateway again; for every key the stale entry is not deleted on that
miss — it survives unchanged if the refetch fails and is overwritten
wholesale (new list, new timestamp) when the refetch succeeds. -/
theorem claim_C6_ttl_expiry_refetch (rmatch : String → String → Bool)
    (fs : String → Except String Directory) (TTL now fuel : Nat)
    (path : String) (skip : Option String) (cache : Cache)
    (res : List File) (ts : Nat)
    (hfind : cacheFind cache (path, skip) = some (res, ts))
    (hstale : TTL ≤ now - ts)
    (hnoskip : should_skip rmatch path skip = false) :
    (∃ rest, (get_all_files rmatch fs TTL now (fuel + 1) path skip cache).calls
      = path :: rest) ∧
    (∀ e, (get_all_files rmatch fs TTL now (fuel + 1) path skip cache).result
        = .error e →
      cacheFind (get_all_files rmatch fs TTL now (fuel + 1) path skip cache).cache
        (path, skip) = some (res, ts)) ∧
    (∀ files, (get_all_files rmatch fs TTL now (fuel + 1) path skip cache).result
        = .ok files →
      cacheFind (get_all_files rmatch fs TTL now (fuel + 1) path skip cache).cache
        (path, skip) = some (files, now)) := by
  have hmiss : freshHit TTL now cache (path, skip) = none := by
    simp [freshHit, hfind, Nat.not_lt.mpr hstale]
  cases hfs : fs path with
  | error m =>
    have hout : get_all_files rmatch fs TTL now (fuel + 1) path skip cache
        = ⟨.error (.gateway path m), cache, [path]⟩ := by
      simp [get_all_files, hmiss, hnoskip, hfs]
    rw [hout]
    refine ⟨⟨[], rfl⟩, fun e _ => hfind, fun files hc => absurd hc (by simp)⟩
  | ok dir =>
    have hstep : ∀ d ∈ dir.directories, ∀ c',
        StackPre rmatch TTL now skip [path] c' →
        RunSpec rmatch TTL now skip [path] d.folder c'
          (get_all_files rmatch fs TTL now fuel d.folder skip c') := by
      intro d hd c' hpre'
      exact get_all_files_stack rmatch fs TTL now skip fuel d.folder c' [path]
        ⟨⟨dir, hfs, List.mem_map_of_mem _ hd⟩, trivial⟩ hpre'
    have hpre : StackPre rmatch TTL now skip [path] cache := by
      intro x hx
      rcases List.mem_cons.mp hx with rfl | hx'
      · exact ⟨hmiss, hnoskip⟩
      · cases hx'
    obtain ⟨hK, hV, hD⟩ := collectChildren_spec rmatch fs TTL now skip [path]
      (fun p c => get_all_files rmatch fs TTL now fuel p skip c)
      dir.directories cache hstep hpre
    rcases hr : collectChildren
        (fun p c => get_all_files rmatch fs TTL now fuel p skip c)
        dir.directories cache with ⟨r₂, c₂, calls₂⟩
    rw [hr] at hK hV hD
    cases r₂ with
    | error e =>
      have hout : get_all_files rmatch fs TTL now (fuel + 1) path skip cache
          = ⟨.error e, c₂, path :: calls₂⟩ := by
        simp [get_all_files, hmiss, hnoskip, hfs, hr]
      rw [hout]
      refine ⟨⟨calls₂, rfl⟩, ?_, fun files hc => absurd hc (by simp)⟩
      intro e' _
      rw [hK path (List.mem_cons_self _ _)]
      exact hfind
    | ok subs =>
      have hout : get_all_files rmatch fs TTL now (fuel + 1) path skip cache
          = ⟨.ok ((dir.files ++ subs).filter
                (fun f => !should_skip rmatch f.file skip)),
              cacheInsert c₂ (path, skip)
                ((dir.files ++ subs).filter
                  (fun f => !should_skip rmatch f.file skip), now),
              path :: calls₂⟩ := by
        simp [get_all_files, hmiss, hnoskip, hfs, hr]
      rw [hout]
      refine ⟨⟨calls₂, rfl⟩, fun e hc => absurd hc (by simp), ?_⟩
      intro files hc
      simp only [Except.ok.injEq] at hc
      rw [cacheFind_cacheInsert, if_pos rfl, hc]

/-- Concrete instance of the amended claim C6: a stale entry for a
non-skipped path triggers the fetch of that path again, and a successful
refetch overwrites the entry with the new list and timestamp. -/
theorem claim_C6_witness :
    (∃ rest, (get_all_files (fun _ _ => false) (fun _ => .ok ⟨[], []⟩)
      5 10 3 "A" none [(("A", none), ([File.mk "old.mp3" "o" "1"], 0))]).calls
      = "A" :: rest) ∧
    (∀ e, (get_all_files (fun _ _ => false) (fun _ => .ok ⟨[], []⟩)
        5 10 3 "A" none [(("A", none), ([File.mk "old.mp3" "o" "1"], 0))]).result
        = .error e →
      cacheFind (get_all_files (fun _ _ => false) (fun _ => .ok ⟨[], []⟩)
        5 10 3 "A" none [(("A", none), ([File.mk "old.mp3" "o" "1"], 0))]).cache
        ("A", none) = some ([File.mk "old.mp3" "o" "1"], 0)) ∧
    (∀ files, (get_all_files (fun _ _ => false) (fun _ => .ok ⟨[], []⟩)
        5 10 3 "A" none [(("A", none), ([File.mk "old.mp3" "o" "1"], 0))]).result
        = .ok files →
      cacheFind (get_all_files (fun _ _ => false) (fun _ => .ok ⟨[], []⟩)
        5 10 3 "A" none [(("A", none), ([File.mk "old.mp3" "o" "1"], 0))]).cache
        ("A", none) = some (files, 10)) :=
  claim_C6_ttl_expiry_refetch (fun _ _ => false) (fun _ => .ok ⟨[], []⟩)
    5 10 2 "A" none [(("A", none), ([File.mk "old.mp3" "o" "1"], 0))]
    [File.mk "old.mp3" "o" "1"] 0 rfl (by decide) (by decide)

theorem freshHit_some {TTL now : Nat} {c : Cache} {k : CacheKey}
    {res : List File} (h : freshHit TTL now c k = some res) :
    ∃ ts, cacheFind c k = some (res, ts) ∧ now - ts < TTL := by
  rcases hf : cacheFind c k with _ | ⟨res', ts⟩
  · simp [freshHit, hf] at h
  · by_cases hlt : now - ts < TTL
    · simp [freshHit, hf, hlt] at h
      subst h
      exact ⟨ts, rfl, hlt⟩

    · simp [freshHit, hf, hlt] at h

theorem cacheFiltered_insert (rmatch : String → String → Bool)
    (skip : Option String) (c : Cache) (p : String) (res : List File)
    (ts : Nat) (hc : CacheFiltered rmatch skip c)
    (hres : ∀ f ∈ res, should_skip rmatch f.file skip = false) :
    CacheFiltered rmatch skip (cacheInsert c (p, skip) (res, ts)) := by
  intro p' res' ts' hfind f hf
  rw [cacheFind_cacheInsert] at hfind
  by_cases h : (p, skip) = ((p', skip) : CacheKey)
  · rw [if_pos h] at hfind
    simp only [Option.some.injEq, Prod.mk.injEq] at hfind
    obtain ⟨rfl, rfl⟩ := hfind
    exact hres f hf
  · rw [if_neg h] at hfind
    exact hc p' res' ts' hfind f hf

theorem collectChildren_preserves_filtered (rmatch : String → String → Bool)
    (skip : Option String) (step : String → Cache → CollectResult)
    (hstep : ∀ p c, CacheFiltered rmatch skip c →
      CacheFiltered rmatch skip (step p c).cache) :
    ∀ (ds : List Folder) (c : Cache), CacheFiltered rmatch skip c →
      CacheFiltered rmatch skip (collectChildren step ds c).cache := by
  intro ds
  induction ds with
  | nil =>
    intro c hc
    simpa [collectChildren] using hc
  | cons d rest ih =>
    intro c hc
    rcases hs : step d.folder c with ⟨r, c₁, calls₁⟩
    have hc₁ : CacheFiltered rmatch skip c₁ := by
      have := hstep d.folder c hc
      rwa [hs] at this
    cases r with
    | error e =>
      have hout : collectChildren step (d :: rest) c = ⟨.error e, c₁, calls₁⟩ := by
        simp [collectChildren, hs]
      rw [hout]
      exact hc₁
    | ok sub =>
      rcases hr : collectChildren step rest c₁ with ⟨r₂, c₂, calls₂⟩
      have hc₂ : CacheFiltered rmatch skip c₂ := by
        have := ih c₁ hc₁
        rwa [hr] at this
      cases r₂ with
      | error e₂ =>
        have hout : collectChildren step (d :: rest) c
            = ⟨.error e₂, c₂, calls₁ ++ calls₂⟩ := by
          simp [collectChildren, hs, hr]
        rw [hout]
        exact hc₂
      | ok subs₂ =>
        have hout : collectChildren step (d :: rest) c
            = ⟨.ok (sub ++ subs₂), c₂, calls₁ ++ calls₂⟩ := by
          simp [collectChildren, hs, hr]
        rw [hout]
        exact hc₂

theorem get_all_files_preserves_filtered (rmatch : String → String → Bool)
    (fs : String → Except String Directory) (TTL now : Nat)
    (skip : Option String) :
    ∀ (fuel : Nat) (path : String) (cache : Cache),
      CacheFiltered rmatch skip cache →
      CacheFiltered rmatch skip
        (get_all_files rmatch fs TTL now fuel path skip cache).cache := by
  intro fuel
  induction fuel with
  | zero =>
    intro path cache hc
    rcases hh : freshHit TTL now cache (path, skip) with _ | res
    · cases hsk : should_skip rmatch path skip with
      | true =>
        rw [get_all_files_skip rmatch fs TTL now 0 path skip cache hh hsk]
        exact cacheFiltered_insert rmatch skip cache path [] now hc (by simp)
      | false =>
        have hout : get_all_files rmatch fs TTL now 0 path skip cache
            = ⟨.error .fuelOut, cache, []⟩ := by
          simp [get_all_files, hh, hsk]
        rw [hout]
        exact hc
    · rw [get_all_files_hit rmatch fs TTL now 0 path skip cache res hh]
      exact hc
  | succ fuel ih =>
    intro path cache hc
    rcases hh : freshHit TTL now cache (path, skip) with _ | res
    · cases hsk : should_skip rmatch path skip with
      | true =>
        rw [get_all_files_skip rmatch fs TTL now (fuel + 1) path skip cache hh hsk]
        exact cacheFiltered_insert rmatch skip cache path [] now hc (by simp)
      | false =>
        cases hfs : fs path with
        | error m =>
          have hout : get_all_files rmatch fs TTL now (fuel + 1) path skip cache
              = ⟨.error (.gateway path m), cache, [path]⟩ := by
            simp [get_all_files, hh, hsk, hfs]
          rw [hout]
          exact hc
        | ok dir =>
          have hfold := collectChildren_preserves_filtered rmatch skip
            (fun p c => get_all_files rmatch fs TTL now fuel p skip c)
            (fun p c hc' => ih p c hc') dir.directories cache hc
          rcases hr : collectChildren
              (fun p c => get_all_files rmatch fs TTL now fuel p skip c)
              dir.directories cache with ⟨r₂, c₂, calls₂⟩
          rw [hr] at hfold
          cases r₂ with
          | error e =>
            have hout : get_all_files rmatch fs TTL now (fuel + 1) path skip cache
                = ⟨.error e, c₂, path :: calls₂⟩ := by
              simp [get_all_files, hh, hsk, hfs, hr]
            rw [hout]
            exact hfold
          | ok subs =>
            have hout : get_all_files rmatch fs TTL now (fuel + 1) path skip cache
                = ⟨.ok ((dir.files ++ subs).filter
                      (fun f => !should_skip rmatch f.file skip)),
                    cacheInsert c₂ (path, skip)
                      ((dir.files ++ subs).filter
                        (fun f => !should_skip rmatch f.file skip), now),
                    path :: calls₂⟩ := by
              simp [get_all_files, hh, hsk, hfs, hr]
            rw [hout]
            apply cacheFiltered_insert rmatch skip c₂ path _ now hfold
            intro f hf
            have := (List.mem_filter.mp hf).2
            simpa using this
    · rw [get_all_files_hit rmatch fs TTL now (fuel + 1) path skip cache res hh]
      exact hc

/-- Claim C3: starting from a cache satisfying the filtering invariant,
a successful collect of a non-skipped path returns no file whose path the
skip predicate rejects — a matching file is excluded even when its parent
directory is not — and the invariant is preserved. -/
theorem claim_C3_result_never_skipped (rmatch : String → String → Bool)
    (fs : String → Except String Directory) (TTL now fuel : Nat)
    (path : String) (skip : Option String) (cache : Cache) (res : List File)
    (hfilt : CacheFiltered rmatch skip cache)
    (hnoskip : should_skip rmatch path skip = false)
    (hok : (get_all_files rmatch fs TTL now fuel path skip cache).result
      = .ok res) :
    (∀ f ∈ res, should_skip rmatch f.file skip = false) ∧
    CacheFiltered rmatch skip
      (get_all_files rmatch fs TTL now fuel path skip cache).cache := by
  refine ⟨?_,
    get_all_files_preserves_filtered rmatch fs TTL now skip fuel path cache hfilt⟩
  rcases hh : freshHit TTL now cache (path, skip) with _ | r
  · cases fuel with
    | zero =>
      have hout : get_all_files rmatch fs TTL now 0 path skip cache
          = ⟨.error .fuelOut, cache, []⟩ := by
        simp [get_all_files, hh, hnoskip]
      rw [hout] at hok
      exact absurd hok (by simp)
    | succ fuel =>
      cases hfs : fs path with
      | error m =>
        have hout : get_all_files rmatch fs TTL now (fuel + 1) path skip cache
            = ⟨.error (.gateway path m), cache, [path]⟩ := by
          simp [get_all_files, hh, hnoskip, hfs]
        rw [hout] at hok
        exact absurd hok (by simp)
      | ok dir =>
        rcases hr : collectChildren
            (fun p c => get_all_files rmatch fs TTL now fuel p skip c)
            dir.directories cache with ⟨r₂, c₂, calls₂⟩
        cases r₂ with
        | error e =>
          have hout : get_all_files rmatch fs TTL now (fuel + 1) path skip cache
              = ⟨.error e, c₂, path :: calls₂⟩ := by
            simp [get_all_files, hh, hnoskip, hfs, hr]
          rw [hout] at hok
          exact absurd hok (by simp)
        | ok subs =>
          have hout : get_all_files rmatch fs TTL now (fuel + 1) path skip cache
              = ⟨.ok ((dir.files ++ subs).filter
                    (fun f => !should_skip rmatch f.file skip)),
                  cacheInsert c₂ (path, skip)
                    ((dir.files ++ subs).filter
                      (fun f => !should_skip rmatch f.file skip), now),
                  path :: calls₂⟩ := by
            simp [get_all_files, hh, hnoskip, hfs, hr]
          rw [hout] at hok
          simp only [Except.ok.injEq] at hok
          subst hok
          intro f hf
          have := (List.mem_filter.mp hf).2
          simpa using this
  · rw [get_all_files_hit rmatch fs TTL now fuel path skip cache r hh] at hok
    simp only [Except.ok.injEq] at hok
    subst hok
    obtain ⟨ts, hfind, _⟩ := freshHit_some hh
    exact hfilt path r ts hfind

/-- Concrete instance of claim C3: a file matching the skip pattern is
dropped from the result even though its parent directory does not match. -/
theorem claim_C3_witness :
    (∀ f ∈ [File.mk "y.mp3" "y" "2"],
      should_skip (fun pat p => containsSub pat p) f.file (some "mp4") = false) ∧
    CacheFiltered (fun pat p => containsSub pat p) (some "mp4")
      (get_all_files (fun pat p => containsSub pat p)
        (fun _ => .ok ⟨[File.mk "x.mp4" "x" "1", File.mk "y.mp3" "y" "2"], []⟩)
        10 5 1 "A" (some "mp4") []).cache :=
  claim_C3_result_never_skipped (fun pat p => containsSub pat p)
    (fun _ => .ok ⟨[File.mk "x.mp4" "x" "1", File.mk "y.mp3" "y" "2"], []⟩)
    10 5 1 "A" (some "mp4") [] [File.mk "y.mp3" "y" "2"]
    (by intro p res ts h; simp [cacheFind] at h) (by decide) rfl

/-- Claim C7: whenever collection succeeds, the orchestrator hands
`playTracks` exactly the sorted list of percent-decoded paths of the
sampled files, and that track list is sorted lexicographically. -/
theorem claim_C7_sorted_output (σ : Type) (rmatch : String → String → Bool)
    (uq : String → String) (rng : Nat → Nat)
    (fs : String → Except String Directory)
    (runCmds : List (List String) → Except String σ)
    (TTL now fuel : Nat) (path : String) (count : Nat)
    (clear_first start_playing : Bool) (skip : Option String)
    (cache : Cache) (files : List File)
    (hok : (get_all_files rmatch fs TTL now fuel path skip cache).result
      = .ok files) :
    (mdp_play_random_tracks rmatch uq rng fs runCmds TTL now fuel path count
        clear_first start_playing skip cache).status
      = mpd_play_tracks runCmds (selectedTracks uq rng files count)
          clear_first start_playing ∧
    List.Sorted (· ≤ ·) (selectedTracks uq rng files count) := by
  constructor
  · rcases hr : get_all_files rmatch fs TTL now fuel path skip cache
      with ⟨r, c', calls⟩
    rw [hr] at hok
    cases r with
    | error e => exact absurd hok (by simp)
    | ok fl =>
      simp only [Except.ok.injEq] at hok
      subst hok
      simp [mdp_play_random_tracks, hr]
  · exact List.sorted_insertionSort (· ≤ ·)
      ((select rng files count).map (fun f => uq f.file))

/-- Concrete instance of claim C7: the emitted track list of a concrete
random-play request is the sorted decoded selection. -/
theorem claim_C7_witness :
    (mdp_play_random_tracks (fun _ _ => false) (fun s => s) (fun i => i + 2)
        (fun _ => .ok ⟨[File.mk "b" "b" "1", File.mk "a" "a" "1"], []⟩)
        (fun cmds => .ok cmds.length) 10 0 1 "" 3 true true none []).status
      = mpd_play_tracks (fun cmds => .ok cmds.length)
          (selectedTracks (fun s => s) (fun i => i + 2)
            [File.mk "b" "b" "1", File.mk "a" "a" "1"] 3) true true ∧
    List.Sorted (· ≤ ·)
      (selectedTracks (fun s => s) (fun i => i + 2)
        [File.mk "b" "b" "1", File.mk "a" "a" "1"] 3) :=
  claim_C7_sorted_output Nat (fun _ _ => false) (fun s => s) (fun i => i + 2)
    (fun _ => .ok ⟨[File.mk "b" "b" "1", File.mk "a" "a" "1"], []⟩)
    (fun cmds => .ok cmds.length) 10 0 1 "" 3 true true none []
    [File.mk "b" "b" "1", File.mk "a" "a" "1"] rfl

/-- Claim C9: when the collected candidate set is empty, the playback
batch is empty and the orchestrator still executes the (no-op) command
sequence through the gateway — the empty selection itself never causes a
failure. -/
theorem claim_C9_empty_selection_ok (σ : Type) (rmatch : String → String → Bool)
    (uq : String → String) (rng : Nat → Nat)
    (fs : String → Except String Directory)
    (runCmds : List (List String) → Except String σ)
    (TTL now fuel : Nat) (path : String) (count : Nat)
    (clear_first start_playing : Bool) (skip : Option String) (cache : Cache)
    (hok : (get_all_files rmatch fs TTL now fuel path skip cache).result
      = .ok ([] : List File)) :
    selectedTracks uq rng [] count = [] ∧
    (mdp_play_random_tracks rmatch uq rng fs runCmds TTL now fuel path count
        clear_first start_playing skip cache).status
      = runCmds (mpd_play_tracks_commands [] clear_first start_playing) := by
  have hsel : selectedTracks uq rng [] count = [] := by
    simp [selectedTracks, select, pyChoices, pySorted, Nat.min_zero,
      List.insertionSort]
  refine ⟨hsel, ?_⟩
  rcases hr : get_all_files rmatch fs TTL now fuel path skip cache
    with ⟨r, c', calls⟩
  rw [hr] at hok
  cases r with
  | error e => exact absurd hok (by simp)
  | ok fl =>
    simp only [Except.ok.injEq] at hok
    subst hok
    simp [mdp_play_random_tracks, hr, mpd_play_tracks, hsel]

/-- Concrete instance of claim C9: an entirely pruned directory yields an
empty batch and a successful no-op execution. -/
theorem claim_C9_witness :
    selectedTracks (fun s => s) (fun i => i) [] 10 = [] ∧
    (mdp_play_random_tracks (fun _ _ => false) (fun s => s) (fun i => i)
        (fun _ => .ok ⟨[], []⟩) (fun cmds => .ok cmds.length) 10 5 2
        "The Dresden Files" 10 true true none []).status
      = (fun cmds => (.ok cmds.length : Except String Nat))
          (mpd_play_tracks_commands [] true true) :=
  claim_C9_empty_selection_ok Nat (fun _ _ => false) (fun s => s) (fun i => i)
    (fun _ => .ok ⟨[], []⟩) (fun cmds => .ok cmds.length) 10 5 2
    "The Dresden Files" 10 true true none [] rfl

end LocalMcp
